import Mathlib

/-!
Verification development for the HOPP clustering core
(hybrid/clustering.py: class Clustering and class AffinityPropagation).

All numeric quantities are modelled over the rationals; numpy arrays become
lists of rationals, numpy 2-D arrays become lists of rows.  Python dict
access, list indexing and attribute errors are modelled with Except/Option.
The numpy global random generator is modelled as a state (seed, position)
together with an abstract stream of draws, so that re-seeding is observable.
-/

namespace HoppClustering

abbrev Mat := List (List ℚ)

/-- Minimum of a list of rationals (0 for the empty list, which the code never
takes a minimum of). Models ndarray.min(). -/
def lmin : List ℚ → ℚ
  | [] => 0
  | [x] => x
  | x :: y :: t => min x (lmin (y :: t))

/-- Maximum of a list of rationals (0 for the empty list). Models ndarray.max(). -/
def lmax : List ℚ → ℚ
  | [] => 0
  | [x] => x
  | x :: y :: t => max x (lmax (y :: t))

/-- Index of the first minimum entry, as np.argmin (ties resolved to the lowest
index; 0 on the empty list, where numpy would raise instead). -/
def argminIdx : List ℚ → ℕ
  | [] => 0
  | [_] => 0
  | x :: y :: t => if x ≤ lmin (y :: t) then 0 else argminIdx (y :: t) + 1

/-- Index of the first maximum entry, as np.argmax (ties resolved to the lowest
index; 0 on the empty list). -/
def argmaxIdx : List ℚ → ℕ
  | [] => 0
  | [_] => 0
  | x :: y :: t => if lmax (y :: t) ≤ x then 0 else argmaxIdx (y :: t) + 1

/-- Insert a value into a sorted list, keeping it sorted. -/
def insSorted (x : ℚ) : List ℚ → List ℚ
  | [] => [x]
  | y :: t => if x ≤ y then x :: y :: t else y :: insSorted x t

/-- Ascending sort of a list of rationals (models np.sort for median purposes:
only the multiset of values matters). -/
def sortQ (l : List ℚ) : List ℚ := l.foldr insSorted []

/-- Median as np.median computes it on a flattened array: middle element of the
sorted values for odd length, average of the two middle elements for even
length. -/
def npMedian (l : List ℚ) : ℚ :=
  let s := sortQ l
  let n := s.length
  if n % 2 = 1 then s.getD (n / 2) 0 else (s.getD (n / 2 - 1) 0 + s.getD (n / 2) 0) / 2

/-- Flatten a 2-D array row-major, as numpy does for reductions over the whole
array. -/
def matFlatten : Mat → List ℚ
  | [] => []
  | r :: t => r ++ matFlatten t

/-- Build an n-by-n matrix from an entry function. -/
def mkMat (n : ℕ) (f : ℕ → ℕ → ℚ) : Mat :=
  (List.range n).map (fun i => (List.range n).map (f i))

/-- Entry M[i,j] of a matrix stored as a list of rows (0 outside bounds; the
code never indexes out of bounds). -/
def mentry (M : Mat) (i j : ℕ) : ℚ := (M.getD i []).getD j 0

/-- Row i of the data array (empty outside bounds). -/
def rowOf (data : Mat) (i : ℕ) : List ℚ := data.getD i []

/-- Overwrite the diagonal of a square matrix with a scalar, as
S[inds, inds] = v. -/
def setDiagM (M : Mat) (v : ℚ) : Mat :=
  mkMat M.length (fun i j => if i = j then v else mentry M i j)

/-- Squared Euclidean distance between two feature rows:
((x - y) ** 2).sum(). -/
def d2 (x y : List ℚ) : ℚ := (List.zipWith (fun a b => (a - b) ^ 2) x y).sum

/-- Add v to entry i of a list, as s[i] = s[i] + v. -/
def addAt (l : List ℚ) (i : ℕ) (v : ℚ) : List ℚ := l.set i (l.getD i 0 + v)

/-- Similarity matrix of AffinityPropagation.fit_predict lines 675-679:
S[p, j] = -((data[p] - data[j]) ** 2).sum(), including the zero diagonal. -/
def similarityMatrix (data : Mat) : Mat :=
  mkMat data.length (fun i j => -(d2 (rowOf data i) (rowOf data j)))

/-- Python truthiness of the optional preference: None and 0.0 are both falsy,
so both fall back to the median branch. -/
def prefTruthy : Option ℚ → Bool
  | none => false
  | some v => v != 0

/-- Preference step of fit_predict lines 681-685: a truthy preference
overwrites the diagonal; otherwise the diagonal becomes np.median(S), the
median of ALL entries of S including the zero diagonal. -/
def afpSetPreference (S : Mat) (preference : Option ℚ) : Mat :=
  if prefTruthy preference then setDiagM S (preference.getD 0)
  else setDiagM S (npMedian (matFlatten S))

/-- Off-diagonal entries of a square matrix. Used only to state the spec's
words "median of all off-diagonal similarities" for comparison with the code,
which takes the median over the whole matrix. -/
def offDiagEntries (S : Mat) : List ℚ :=
  (List.range S.length).flatMap
    (fun i => ((List.range S.length).filter (fun j => j != i)).map (fun j => mentry S i j))

/-- Cluster assignment of one point: argmin over exemplars of the distance
matrix row, clusters = S[:, exemplars].argmin(1) for a single row. -/
def assignPtM (S : Mat) (ex : List ℕ) (i : ℕ) : ℕ :=
  argminIdx (ex.map (fun e => mentry S i e))

/-- Cluster assignment of all n points. -/
def assignAllM (S : Mat) (ex : List ℕ) (n : ℕ) : List ℕ :=
  (List.range n).map (assignPtM S ex)

/-- Members of cluster k: pts = np.where(clusters == k)[0]. -/
def clusterPtsM (S : Mat) (ex : List ℕ) (n k : ℕ) : List ℕ :=
  (List.range n).filter (fun i => assignPtM S ex i == k)

/-- Total distance from point p to all members pts of one cluster:
dist_sum[p] = S[pts[p], pts].sum() (S here holds distances with zero
diagonal). -/
def medoidTotalM (S : Mat) (pts : List ℕ) (p : ℕ) : ℚ :=
  (pts.map (fun q => mentry S p q)).sum

/-- Exemplar refinement of fit_predict lines 747-756: in every cluster with
more than 2 members, the exemplar is replaced by the member minimizing the
total distance to the members of that cluster. -/
def refineExemplarsM (S : Mat) (ex : List ℕ) (n : ℕ) : List ℕ :=
  (List.range ex.length).map (fun k =>
    if 2 < (clusterPtsM S ex n k).length
    then (clusterPtsM S ex n k).getD
      (argminIdx ((clusterPtsM S ex n k).map (medoidTotalM S (clusterPtsM S ex n k)))) 0
    else ex.getD k 0)

/-- AffinityPropagation.compute_wcss: sum over clusters k of
(((data - means[k]) ** 2).sum(1) * (cluster_index == k)).sum(). -/
def computeWcss (data : Mat) (cindex : List ℕ) (means : Mat) : ℚ :=
  ((List.range means.length).map (fun k =>
    ((List.range data.length).map (fun i =>
      if cindex.getD i 0 = k then d2 (rowOf data i) (means.getD k []) else 0)).sum)).sum

/-- Hard partition matrix of form_clusters_using_current_parameters lines
480-482: a zero matrix with partition_matrix[g, index[g]] = 1.0. -/
def hardPartition (ngroup ncluster : ℕ) (index : List ℕ) : Mat :=
  (List.range ngroup).map (fun gi =>
    (List.range ncluster).map (fun k => if index.getD gi 0 = k then (1 : ℚ) else 0))

/-- Column sums of a matrix with ncols columns: partition_matrix.sum(0). -/
def colSums (M : Mat) (ncols : ℕ) : List ℚ :=
  (List.range ncols).map (fun k => (M.map (fun row => row.getD k 0)).sum)

/-- State carried through one round of the affinity-propagation message
loop. -/
structure APState where
  A : Mat
  R : Mat
  ex : List Bool
  count : ℕ

/-- One round of the message-passing loop of fit_predict lines 699-733:
responsibility update with exact top-1/top-2 row maxima, availability update,
both damped, then the exemplar set as diag(A) + diag(R) > 0. -/
def apIter (S : Mat) (n : ℕ) (damping : ℚ) (st : APState) : APState :=
  let M := mkMat n (fun i j => mentry st.A i j + mentry S i j)
  let kOf : ℕ → ℕ := fun i => argmaxIdx (M.getD i [])
  let maxvalOf : ℕ → ℚ := fun i => mentry M i (kOf i)
  -- second-highest value in row i: maximum after removing position kOf i
  -- (the code writes -inf there; for n = 1 the code would propagate -inf,
  -- a state it never reaches because n_group == 1 short-circuits earlier)
  let maxval2Of : ℕ → ℚ := fun i => lmax ((M.getD i []).eraseIdx (kOf i))
  let update1 := mkMat n (fun i j =>
    if j = kOf i then mentry S i j - maxval2Of i else mentry S i j - maxvalOf i)
  let R' := mkMat n (fun i j => damping * mentry st.R i j + (1 - damping) * mentry update1 i j)
  let posR := mkMat n (fun i j => max 0 (mentry R' i j))
  let sumR : ℕ → ℚ := fun j => ((List.range n).map (fun i => mentry posR i j)).sum
  let values : ℕ → ℚ := fun j => sumR j - mentry posR j j
  let update2 := mkMat n (fun i j =>
    if i = j then values j else min 0 (values j - mentry posR i j + mentry R' j j))
  let A' := mkMat n (fun i j => damping * mentry st.A i j + (1 - damping) * mentry update2 i j)
  let ex' := (List.range n).map (fun i => decide (0 < mentry A' i i + mentry R' i i))
  ⟨A', R', ex', st.count⟩

/-- The while loop of fit_predict lines 698-733, driven by the remaining
iteration budget; the convergence counter increments when the exemplar set is
unchanged and resets otherwise. -/
def apLoop (S : Mat) (n : ℕ) (damping : ℚ) (conv : ℕ) : ℕ → APState → APState
  | 0, st => st
  | fuel + 1, st =>
    if st.count < conv then
      let st' := apIter S n damping st
      apLoop S n damping conv fuel
        { st' with count := if st'.ex = st.ex then st.count + 1 else 0 }
    else st

/-- Indices where a boolean mask is true: np.where(mask == True)[0]. -/
def boolIndices (l : List Bool) : List ℕ :=
  (List.range l.length).filter (fun i => l.getD i false)

/-- State of the numpy global random generator: the last seed and the position
in that seed's stream. np.random.seed(s) resets the state to (s, 0). -/
structure RngState where
  seed : ℕ
  pos : ℕ

/-- Constructor arguments of AffinityPropagation.__init__. -/
structure APParams where
  damping : ℚ
  max_iter : ℕ
  convergence_iter : ℕ
  preference : Option ℚ

/-- Attributes filled by AffinityPropagation.fit_predict. -/
structure FitResult where
  n_clusters : ℕ
  cluster_means : Mat
  cluster_index : List ℕ
  wcss : ℚ
  exemplars : List ℕ
  converged : Bool

/-- AffinityPropagation.fit_predict. The abstract stream g models the
mathematical content of the numpy Mersenne-Twister: g seed k is the k-th
uniform draw after seeding with seed. The function re-seeds the global
generator with the fixed seed 123 before drawing the symmetry-breaking
perturbation, so the incoming generator state is discarded. -/
def fitPredict (g : ℕ → ℕ → ℚ) (_rng : RngState) (p : APParams) (data : Mat) :
    FitResult × RngState :=
  let n := data.length
  let S0 := similarityMatrix data
  let S1 := afpSetPreference S0 p.preference
  -- np.random.seed(self.random_seed) with random_seed = 123
  let st1 : RngState := ⟨123, 0⟩
  let mag := lmin ((matFlatten S1).map (fun x => |x|))
  let S := mkMat n (fun i j =>
    mentry S1 i j + 1 / 100000000 * mag * mentry S1 i j * (g st1.seed (st1.pos + i * n + j) - 1 / 2))
  let st2 : RngState := ⟨st1.seed, st1.pos + n * n⟩
  let A0 := mkMat n (fun _ _ => 0)
  let R0 := mkMat n (fun _ _ => 0)
  let stFin := apLoop S n p.damping p.convergence_iter p.max_iter ⟨A0, R0, List.replicate n false, 0⟩
  let converged := decide (p.convergence_iter ≤ stFin.count)
  let exemplars0 := boolIndices stFin.ex
  let found := exemplars0.length
  -- lines 744-745: zero the diagonal of S and flip the sign back to distance
  let Spost := mkMat n (fun i j => if i = j then 0 else -(mentry S i j))
  let exemplars1 := refineExemplarsM Spost exemplars0 n
  let clusters1 := assignAllM Spost exemplars1 n
  let means := exemplars1.map (rowOf data)
  (⟨found, means, clusters1, computeWcss data clusters1 means, exemplars1, converged⟩, st2)

/-- The post-processing distance matrix of fit_predict lines 744-745 in exact
arithmetic: the similarity matrix with the diagonal reset to 0 and the sign
flipped back to true squared distance.  This is the matrix the code holds
there whenever the line-689 perturbation term vanishes (in particular whenever
mag = abs(S).min() = 0), and up to the 1e-8-scaled float noise otherwise. -/
def idealPostS (data : Mat) : Mat :=
  mkMat data.length (fun i j => if i = j then 0 else d2 (rowOf data i) (rowOf data j))

/-- Min-max normalization of one daily metric table, calculate_metrics lines
304-307: (table - min) / max(1e-6, max - min), the denominator floored at
1e-6. -/
def normalizeDailyMetric (t : Mat) : Mat :=
  let maxMetric := lmax (matFlatten t)
  let minMetric := lmin (matFlatten t)
  t.map (fun row => row.map (fun x => (x - minMetric) / max (1 / 1000000) (maxMetric - minMetric)))

/-- Which variant of a metric a feature block belongs to: the code
distinguishes them by the _prev / _next suffix of the metric name. -/
inductive GroupMetricKind where
  | own
  | pre
  | nxt

/-- Days referenced by get_data_for_group (calculate_metrics lines 313-319)
for the group starting at day d1: the single day before the group for _prev
metrics, the single day after the group for _next metrics, and the group's own
ndays days otherwise. -/
def daysForGroup (kind : GroupMetricKind) (d1 : ℤ) (ndays : ℕ) : List ℤ :=
  match kind with
  | .pre => [d1 - 1]
  | .nxt => [d1 + (ndays : ℤ)]
  | .own => (List.range ndays).map (fun (i : ℕ) => d1 + (i : ℤ))

/-- Data assembly of get_data_for_group lines 320-329: for each referenced day
in range, the day's ndiv normalized divisions scaled by the metric weight;
for a day outside [0, 365), ndiv copies of the large negative sentinel
-1e8. -/
def getDataForGroup (kind : GroupMetricKind) (d1 : ℤ) (ndays ndiv : ℕ)
    (table : Mat) (w : ℚ) : List ℚ :=
  (daysForGroup kind d1 ndays).flatMap (fun d =>
    if 0 ≤ d ∧ d < 365 then (table.getD d.toNat []).map (fun x => x * w)
    else List.replicate ndiv (-100000000))

/-- A value bound to a numpy variable that is either an array or a float64
scalar.  calculate_metrics lines 200-202 rebind self.daily_avg_dni from the
initial np.zeros(365) array to the scalar mean of the last day's slice on
every loop iteration, because the assignment is missing the [d] subscript. -/
inductive NpVal where
  | scalar (q : ℚ)
  | arr (l : List ℚ)

/-- Arithmetic mean of a slice, ndarray.mean() (0 on an empty slice, where
numpy would return nan with a warning). -/
def npMean (l : List ℚ) : ℚ := l.sum / l.length

/-- Python slice l[a:b]. -/
def listSlice (l : List ℚ) (a b : ℕ) : List ℚ := (l.drop a).take (b - a)

/-- calculate_metrics lines 200-202 as written: daily_avg_dni starts as
np.zeros(365) and the loop body executes
self.daily_avg_dni = hourly_data['dni'][d*n_pts_day : (d+1)*n_pts_day].mean() / 1000
for d in range(365), rebinding the whole attribute to a scalar each time. -/
def computeDailyAvgDni (dni : List ℚ) (nPtsDay : ℕ) : NpVal :=
  (List.range 365).foldl
    (fun _ d => NpVal.scalar (npMean (listSlice dni (d * nPtsDay) ((d + 1) * nPtsDay)) / 1000))
    (NpVal.arr (List.replicate 365 0))

/-- Clustering.csp_soc_heuristic: reads sim_start_days[clusterid], subscripts
daily_avg_dni at max(0, d-2) — a TypeError when daily_avg_dni is a float64
scalar — then applies the fixed decision table.  Python truthiness makes both
None and 0.0 take the no-solar-multiple branch. -/
def cspSocHeuristic (simStartDays : List ℕ) (dailyAvgDni : NpVal) (clusterid : ℕ)
    (solarMultiple : Option ℚ) : Except String ℚ :=
  match simStartDays.get? clusterid with
  | none => Except.error "IndexError"
  | some d =>
    match dailyAvgDni with
    | NpVal.scalar _ => Except.error "TypeError"
    | NpVal.arr l =>
      let prevDayDni := l.getD (max 0 ((d : ℤ) - 2)).toNat 0
      match solarMultiple with
      | none => Except.ok 10
      | some sm =>
        if sm = 0 then Except.ok 10
        else if prevDayDni < 6 ∨ sm < 3 / 2 then Except.ok 5
        else Except.ok (if sm < 2 then 10 else 20)

/-- Distance from a boundary feature vector to cluster mean k, restricted to
the boundary features defined (strictly above the -1e6 sentinel threshold),
adjust_weighting_for_incomplete_groups lines 513-518. -/
def boundaryDist (dataB : List ℚ) (means : Mat) (nfeatures k : ℕ) : ℚ :=
  ((List.range nfeatures).map (fun f =>
    if -1000000 < dataB.getD f 0 then (dataB.getD f 0 - (means.getD k []).getD f 0) ^ 2 else 0)).sum

/-- Clustering.adjust_weighting_for_incomplete_groups: assign the first and
last incomplete groups to their nearest cluster means, then form the adjusted
weights from the partition-matrix column sums plus the two boundary
fractions, renormalized by the adjusted group count. -/
def adjustWeighting (dataFirst dataLast : List ℚ) (means pm : Mat)
    (nclusters ngroup nfeatures ndays : ℕ) : List ℚ :=
  let distFirst := (List.range nclusters).map (boundaryDist dataFirst means nfeatures)
  let distLast := (List.range nclusters).map (boundaryDist dataLast means nfeatures)
  let indexFirst := argminIdx distFirst
  let indexLast := argminIdx distLast
  let nfirst : ℚ := 1
  let nlast : ℚ := 365 - ngroup * ndays - 1
  let ngroupAdj : ℚ := ngroup + nfirst / ndays + nlast / ndays
  let s := colSums pm nclusters
  let s1 := addAt s indexFirst (nfirst / ndays)
  let s2 := addAt s1 indexLast (nlast / ndays)
  s2.map (fun w => w / ngroupAdj)

/-- The self.clusters dictionary, with one optional field per key the code
ever stores; a missing key is None and reading it raises KeyError. -/
structure ClustersDict where
  n_cluster : Option ℕ
  wcss : Option ℚ
  index : Option (List ℕ)
  count : Option (List ℕ)
  means : Option Mat
  partition_matrix : Option Mat
  exemplars : Option (List ℕ)
  converged : Option Bool
  weights : Option (List ℚ)
deriving DecidableEq

/-- The empty dict self.clusters = {} set by Clustering.__init__. -/
def emptyClustersDict : ClustersDict :=
  ⟨none, none, none, none, none, none, none, none, none⟩

/-- The local dict built by the n_group == 1 branch of
form_clusters_using_current_parameters (lines 446-454).  The branch ends with
return clusters, but both call sites discard the return value, so this dict
never reaches self.clusters; note it also never receives the weights and
converged keys. -/
def formClustersSingle (data : Mat) : ClustersDict :=
  { n_cluster := some 1
    wcss := some 0
    index := some [0]
    count := some [1]
    means := some data        -- np.ones((1, m)) * data for a single row
    partition_matrix := some [[1]]
    exemplars := some [0]
    converged := none
    weights := none }

/-- Insert an index into a list of indices sorted by their values. -/
def insIdxBy (val : ℕ → ℕ) (x : ℕ) : List ℕ → List ℕ
  | [] => [x]
  | y :: t => if val x < val y then x :: y :: t else y :: insIdxBy val x t

/-- Indices that sort a list of naturals ascending (np.argsort on the exemplar
indices, whose values are distinct). -/
def argsortN (l : List ℕ) : List ℕ :=
  (List.range l.length).foldr (insIdxBy (fun i => l.getD i 0)) []

/-- Clustering.form_clusters_using_current_parameters as it affects
self.clusters.  For n_group == 1 the built dict is returned and discarded by
every caller, leaving self.clusters untouched; otherwise the affinity
propagation engine runs and self.clusters receives every key.  The fuzzy
branch references the attribute mfuzzy that no code path initializes. -/
def formClusters (g : ℕ → ℕ → ℚ) (rng : RngState) (data : Mat) (damping mult : ℚ)
    (nmaxiter nconverge : ℕ) (hard : Bool) (prev : ClustersDict) :
    Except String (ClustersDict × RngState) :=
  let ngroup := data.length
  if ngroup = 1 then Except.ok (prev, rng)
  else
    let pref : Option ℚ :=
      if mult = 1 then none
      else some (npMedian (matFlatten (similarityMatrix data)) * mult)
    let (res, rng') := fitPredict g rng ⟨damping, nmaxiter, nconverge, pref⟩ data
    let ncl := res.n_clusters
    let count := (List.range ncl).map (fun k => (res.cluster_index.filter (fun c => c == k)).length)
    if hard then
      let pm := hardPartition ngroup ncl res.cluster_index
      let weights := (colSums pm ncl).map (fun s => s / (ngroup : ℚ))
      Except.ok
        ({ n_cluster := some ncl, wcss := some res.wcss, index := some res.cluster_index,
           count := some count, means := some res.cluster_means, partition_matrix := some pm,
           exemplars := some res.exemplars, converged := some res.converged,
           weights := some weights }, rng')
    else Except.error "AttributeError: mfuzzy"

/-- The clustering inputs set by Clustering.__init__ that create_clusters
reads. -/
structure ClusteringParams where
  n_cluster : ℕ
  Nmaxiter : ℕ
  sim_hard_partitions : Bool
  afp_damping : ℚ
  afp_Nconverge : ℕ
  afp_enforce_Ncluster : Bool
  afp_enforce_Ncluster_tol : ℕ
  afp_enforce_Ncluster_maxiter : ℕ

/-- Defaults from Clustering.__init__. -/
def defaultClusteringParams : ClusteringParams :=
  { n_cluster := 20, Nmaxiter := 200, sim_hard_partitions := true, afp_damping := 1 / 2,
    afp_Nconverge := 10, afp_enforce_Ncluster := true, afp_enforce_Ncluster_tol := 0,
    afp_enforce_Ncluster_maxiter := 50 }

/-- Mutable state of the create_clusters preference-multiplier search. -/
structure CtrlState where
  mult : ℚ
  multPrev : ℚ
  ncPrev : ℕ
  damping : ℚ
  clusters : ClustersDict
  rng : RngState
  finished : Bool

/-- The while loop of create_clusters lines 366-406: run the engine, read
self.clusters['converged'] (KeyError if the dict never received it), bump the
damping on non-convergence, stop within tolerance of the target, otherwise
propose the next multiplier proportionally or by the under-relaxed secant
rule. -/
def ctrlLoop (g : ℕ → ℕ → ℚ) (data : Mat) (cfg : ClusteringParams) (dampingOrig : ℚ) :
    ℕ → CtrlState → Except String CtrlState
  | 0, st => Except.ok st
  | fuel + 1, st =>
    if st.finished then Except.ok st
    else
      match formClusters g st.rng data st.damping st.mult cfg.Nmaxiter cfg.afp_Nconverge
        cfg.sim_hard_partitions st.clusters with
      | Except.error e => Except.error e
      | Except.ok (dict, rng') =>
        match dict.converged with
        | none => Except.error "KeyError: converged"
        | some conv =>
          if conv = false then
            ctrlLoop g data cfg dampingOrig fuel
              { st with clusters := dict, rng := rng',
                        damping := min (st.damping + 1 / 20) (19 / 20) }
          else
            match dict.n_cluster with
            | none => Except.error "KeyError: n_cluster"
            | some nc =>
              if |(nc : ℤ) - cfg.n_cluster| ≤ cfg.afp_enforce_Ncluster_tol then
                Except.ok { st with clusters := dict, rng := rng', damping := dampingOrig,
                                    finished := true }
              else
                -- division here is total rational division (x / 0 = 0), which can
                -- differ from Python float division only in the unreachable case
                -- mult = mult_prev with a changed cluster count
                let multNew0 : ℚ :=
                  if st.ncPrev = 0 ∨ nc = st.ncPrev then st.mult * nc / cfg.n_cluster
                  else
                    let dNcdmult := ((nc : ℚ) - st.ncPrev) / (st.mult - st.multPrev)
                    st.mult - 17 / 20 * ((nc : ℚ) - cfg.n_cluster) / dNcdmult
                let multNew := if multNew0 ≤ 0 then st.mult * nc / cfg.n_cluster else multNew0
                ctrlLoop g data cfg dampingOrig fuel
                  { mult := multNew, multPrev := st.mult, ncPrev := nc, damping := dampingOrig,
                    clusters := dict, rng := rng', finished := false }

/-- The cluster-relabeling block of create_clusters lines 416-437: keys
n_cluster and wcss are copied, every other key is rebuilt via np.empty_like
and then refilled in ascending order of exemplar index — except converged,
which is never refilled and therefore holds whatever the uninitialized buffer
contained (the garbage argument). -/
def sortClustersDict (ngroup : ℕ) (c : ClustersDict) (garbage : Bool) :
    Except String ClustersDict :=
  match c.n_cluster with
  | none => Except.error "KeyError: n_cluster"
  | some ncl =>
    match c.exemplars, c.index, c.count, c.weights, c.means, c.partition_matrix, c.wcss with
    | some ex, some idx, some cnt, some w, some mns, some pm, some wc =>
      let inds := argsortN ex
      let invInds := argsortN inds
      let pm' := (List.range ngroup).map (fun gi =>
        (List.range ncl).map (fun i => (pm.getD gi []).getD (inds.getD i 0) 0))
      let cnt' := (List.range ncl).map (fun i => cnt.getD (inds.getD i 0) 0)
      let w' := (List.range ncl).map (fun i => w.getD (inds.getD i 0) 0)
      let ex' := (List.range ncl).map (fun i => ex.getD (inds.getD i 0) 0)
      let mns' := (List.range ncl).map (fun i => mns.getD (inds.getD i 0) [])
      let idx' := (List.range ngroup).map (fun gi => invInds.getD (idx.getD gi 0) 0)
      Except.ok
        { n_cluster := some ncl, wcss := some wc, index := some idx', count := some cnt',
          means := some mns', partition_matrix := some pm', exemplars := some ex',
          converged := some garbage, weights := some w' }
    | _, _, _, _, _, _, _ => Except.error "KeyError"

/-- Clustering.create_clusters on a fresh instance (self.clusters = {}):
either the enforce-N-cluster search loop or a single engine run, followed by
the relabeling block. -/
def createClusters (g : ℕ → ℕ → ℚ) (rng : RngState) (data : Mat) (cfg : ClusteringParams)
    (garbage : Bool) : Except String ClustersDict :=
  let afterCtrl : Except String CtrlState :=
    if cfg.afp_enforce_Ncluster then
      ctrlLoop g data cfg cfg.afp_damping cfg.afp_enforce_Ncluster_maxiter
        ⟨1, 1, 0, cfg.afp_damping, emptyClustersDict, rng, false⟩
    else
      match formClusters g rng data cfg.afp_damping 1 cfg.Nmaxiter cfg.afp_Nconverge
        cfg.sim_hard_partitions emptyClustersDict with
      | Except.error e => Except.error e
      | Except.ok (dict, rng') => Except.ok ⟨1, 1, 0, cfg.afp_damping, dict, rng', false⟩
  match afterCtrl with
  | Except.error e => Except.error e
  | Except.ok stF => sortClustersDict data.length stF.clusters garbage

/-- A converged two-cluster result as form_clusters_using_current_parameters
would store it, used to exhibit what the relabeling block does to the
converged key. -/
def sampleConvergedClusters : ClustersDict :=
  { n_cluster := some 2
    wcss := some 5
    index := some [1, 0]
    count := some [1, 1]
    means := some [[0], [1]]
    partition_matrix := some [[0, 1], [1, 0]]
    exemplars := some [1, 0]
    converged := some true
    weights := some [1 / 2, 1 / 2] }

/-!
General lemmas about the list helpers.
-/

lemma getD_map_lt {α β : Type} (f : α → β) (l : List α) (i : ℕ) (d : β) (d' : α)
    (h : i < l.length) : (l.map f).getD i d = f (l.getD i d') := by
  induction l generalizing i with
  | nil => simp at h
  | cons x t ih =>
    cases i with
    | zero => rfl
    | succ j => simpa using ih j (Nat.lt_of_succ_lt_succ (by simpa using h))

lemma getD_range {n i : ℕ} (d : ℕ) (h : i < n) : (List.range n).getD i d = i := by
  simp [List.getD_eq_getElem?_getD, List.getElem?_range h]

lemma range_map_getD {β : Type} (f : ℕ → β) {n k : ℕ} (d : β) (h : k < n) :
    ((List.range n).map f).getD k d = f k := by
  rw [getD_map_lt f _ k d 0 (by simpa using h), getD_range 0 h]

lemma getD_mem {α : Type} {l : List α} {i : ℕ} (d : α) (h : i < l.length) : l.getD i d ∈ l := by
  simp only [List.getD_eq_getElem?_getD, List.getElem?_eq_getElem h, Option.getD_some]
  exact List.getElem_mem h

lemma mem_getD {α : Type} {l : List α} {a : α} (d : α) (h : a ∈ l) :
    ∃ i, i < l.length ∧ l.getD i d = a := by
  obtain ⟨i, hi, rfl⟩ := List.mem_iff_getElem.mp h
  exact ⟨i, hi, by simp [List.getD_eq_getElem?_getD, List.getElem?_eq_getElem hi]⟩

lemma listRangeSum (f : ℕ → ℚ) (n : ℕ) :
    ((List.range n).map f).sum = ∑ i ∈ Finset.range n, f i := by
  induction n with
  | zero => rfl
  | succ m ih =>
    rw [List.range_succ, List.map_append, List.sum_append, Finset.sum_range_succ, ih]; simp

lemma sum_map_add (n : ℕ) (a b : ℕ → ℚ) :
    ((List.range n).map (fun k => a k + b k)).sum
      = ((List.range n).map a).sum + ((List.range n).map b).sum := by
  simp [listRangeSum, Finset.sum_add_distrib]

lemma filter_map_sum (l : List ℕ) (p : ℕ → Bool) (f : ℕ → ℚ) :
    ((l.filter p).map f).sum = (l.map (fun x => if p x then f x else 0)).sum := by
  induction l with
  | nil => rfl
  | cons x t ih => by_cases h : p x <;> simp [List.filter_cons, h, ih]

lemma sum_indicator_range {j n : ℕ} (h : j < n) :
    ((List.range n).map (fun k => if j = k then (1 : ℚ) else 0)).sum = 1 := by
  rw [listRangeSum, Finset.sum_ite_eq (Finset.range n) j (fun _ => (1 : ℚ))]
  simp [Finset.mem_range.mpr h]

lemma lmin_le (l : List ℚ) : ∀ x ∈ l, lmin l ≤ x := by
  induction l with
  | nil => simp
  | cons a t ih =>
    intro x hx
    cases t with
    | nil =>
      rcases List.mem_singleton.mp hx with rfl
      simp [lmin]
    | cons b s =>
      rcases List.mem_cons.mp hx with rfl | h
      · simp [lmin]
      · exact le_trans (by simp [lmin]) (ih x h)

lemma lmin_mem : ∀ (l : List ℚ), l ≠ [] → lmin l ∈ l := by
  intro l
  induction l with
  | nil => simp
  | cons a t ih =>
    intro _
    cases t with
    | nil => simp [lmin]
    | cons b s =>
      rcases min_choice a (lmin (b :: s)) with h | h
      · rw [show lmin (a :: b :: s) = min a (lmin (b :: s)) from rfl, h]
        exact List.mem_cons_self a _
      · rw [show lmin (a :: b :: s) = min a (lmin (b :: s)) from rfl, h]
        exact List.mem_cons_of_mem a (ih (by simp))

lemma le_lmax (l : List ℚ) : ∀ x ∈ l, x ≤ lmax l := by
  induction l with
  | nil => simp
  | cons a t ih =>
    intro x hx
    cases t with
    | nil =>
      rcases List.mem_singleton.mp hx with rfl
      simp [lmax]
    | cons b s =>
      rcases List.mem_cons.mp hx with rfl | h
      · simp [lmax]
      · exact le_trans (ih x h) (by simp [lmax])

lemma lmax_mem : ∀ (l : List ℚ), l ≠ [] → lmax l ∈ l := by
  intro l
  induction l with
  | nil => simp
  | cons a t ih =>
    intro _
    cases t with
    | nil => simp [lmax]
    | cons b s =>
      rcases max_choice a (lmax (b :: s)) with h | h
      · rw [show lmax (a :: b :: s) = max a (lmax (b :: s)) from rfl, h]
        exact List.mem_cons_self a _
      · rw [show lmax (a :: b :: s) = max a (lmax (b :: s)) from rfl, h]
        exact List.mem_cons_of_mem a (ih (by simp))

lemma lmin_getD_le (l : List ℚ) {j : ℕ} (h : j < l.length) : lmin l ≤ l.getD j 0 :=
  lmin_le l _ (getD_mem 0 h)

lemma argmin_lt_length : ∀ (l : List ℚ), l ≠ [] → argminIdx l < l.length := by
  intro l
  induction l with
  | nil => simp
  | cons a t ih =>
    intro _
    cases t with
    | nil => simp [argminIdx]
    | cons b s =>
      by_cases h : a ≤ lmin (b :: s)
      · simp [argminIdx, h]
      · have := ih (by simp)
        simp only [argminIdx, if_neg h]
        simpa using Nat.succ_lt_succ this

lemma argmin_getD : ∀ (l : List ℚ), l ≠ [] → l.getD (argminIdx l) 0 = lmin l := by
  intro l
  induction l with
  | nil => simp
  | cons a t ih =>
    intro _
    cases t with
    | nil => simp [argminIdx, lmin]
    | cons b s =>
      by_cases h : a ≤ lmin (b :: s)
      · simp [argminIdx, h, lmin, min_eq_left h]
      · have h' : lmin (b :: s) ≤ a := le_of_lt (lt_of_not_le h)
        simp only [argminIdx, if_neg h]
        rw [show (a :: b :: s).getD (argminIdx (b :: s) + 1) 0 = (b :: s).getD (argminIdx (b :: s)) 0
          from rfl, ih (by simp)]
        rw [show lmin (a :: b :: s) = min a (lmin (b :: s)) from rfl, min_eq_right h']

lemma argmin_first : ∀ (l : List ℚ) (j : ℕ), j < argminIdx l → lmin l < l.getD j 0 := by
  intro l
  induction l with
  | nil => simp [argminIdx]
  | cons a t ih =>
    intro j hj
    cases t with
    | nil => simp [argminIdx] at hj
    | cons b s =>
      by_cases h : a ≤ lmin (b :: s)
      · simp [argminIdx, h] at hj
      · have h' : lmin (b :: s) < a := lt_of_not_le h
        simp only [argminIdx, if_neg h] at hj
        rw [show lmin (a :: b :: s) = min a (lmin (b :: s)) from rfl, min_eq_right (le_of_lt h')]
        cases j with
        | zero => exact h'
        | succ i => exact ih i (Nat.lt_of_succ_lt_succ hj)

lemma d2_nonneg : ∀ (x y : List ℚ), 0 ≤ d2 x y := by
  intro x
  induction x with
  | nil => intro y; cases y <;> simp [d2]
  | cons a t ih =>
    intro y
    cases y with
    | nil => simp [d2]
    | cons b s =>
      have h := ih s
      simp only [d2, List.zipWith_cons_cons, List.sum_cons] at h ⊢
      positivity

lemma d2_self : ∀ (x : List ℚ), d2 x x = 0 := by
  intro x
  induction x with
  | nil => rfl
  | cons a t ih =>
    simp only [d2, List.zipWith_cons_cons, List.sum_cons]
    simp only [d2] at ih
    simp [ih]

lemma d2_symm : ∀ (x y : List ℚ), d2 x y = d2 y x := by
  intro x
  induction x with
  | nil => intro y; cases y <;> rfl
  | cons a t ih =>
    intro y
    cases y with
    | nil => rfl
    | cons b s =>
      simp only [d2, List.zipWith_cons_cons, List.sum_cons] at ih ⊢
      rw [ih s]; ring_nf

lemma d2_zero_eq : ∀ (x y : List ℚ), x.length = y.length → d2 x y = 0 → x = y := by
  intro x
  induction x with
  | nil =>
    intro y hlen _
    exact (List.length_eq_zero.mp hlen.symm).symm
  | cons a t ih =>
    intro y hlen hz
    cases y with
    | nil => simp at hlen
    | cons b s =>
      simp only [d2, List.zipWith_cons_cons, List.sum_cons] at hz
      have h1 : (0 : ℚ) ≤ (a - b) ^ 2 := sq_nonneg _
      have h2 : (0 : ℚ) ≤ (List.zipWith (fun a b => (a - b) ^ 2) t s).sum := by
        have := d2_nonneg t s; simpa [d2] using this
      have hab : (a - b) ^ 2 = 0 := by linarith
      have hts : d2 t s = 0 := by
        simp only [d2]; linarith
      have hab' : a = b := by
        have := pow_eq_zero_iff (n := 2) (by norm_num) |>.mp hab
        linarith [sub_eq_zero.mp this]
      have hlen' : t.length = s.length := by simpa using hlen
      rw [hab', ih s hlen' hts]

lemma length_mkMat (n : ℕ) (f : ℕ → ℕ → ℚ) : (mkMat n f).length = n := by
  simp [mkMat]

lemma mentry_mkMat (n : ℕ) (f : ℕ → ℕ → ℚ) {i j : ℕ} (hi : i < n) (hj : j < n) :
    mentry (mkMat n f) i j = f i j := by
  unfold mentry mkMat
  rw [range_map_getD _ [] hi, range_map_getD _ 0 hj]

lemma addAt_length (l : List ℚ) (i : ℕ) (v : ℚ) : (addAt l i v).length = l.length := by
  simp [addAt]

lemma addAt_sum : ∀ (l : List ℚ) (i : ℕ) (v : ℚ), i < l.length →
    (addAt l i v).sum = l.sum + v := by
  intro l
  induction l with
  | nil => simp
  | cons a t ih =>
    intro i v hi
    cases i with
    | zero => simp [addAt]; ring
    | succ j =>
      have hj : j < t.length := Nat.lt_of_succ_lt_succ (by simpa using hi)
      have := ih j v hj
      simp only [addAt] at this ⊢
      simp only [List.getD_cons_succ, List.set_cons_succ, List.sum_cons, this]
      ring

lemma sum_map_div (l : List ℚ) (c : ℚ) : (l.map (fun x => x / c)).sum = l.sum / c := by
  induction l with
  | nil => simp
  | cons a t ih => simp [ih, add_div]

lemma sum_getD_range_eq : ∀ (row : List ℚ),
    ((List.range row.length).map (fun k => row.getD k 0)).sum = row.sum := by
  intro row
  induction row with
  | nil => rfl
  | cons a t ih =>
    rw [show (a :: t).length = t.length + 1 from rfl, List.range_succ_eq_map]
    rw [List.map_cons, List.map_map, List.sum_cons]
    rw [show ((fun k => (a :: t).getD k 0) ∘ Nat.succ) = (fun k => t.getD k 0) from rfl, ih]
    rfl

lemma colSums_sum (pm : Mat) (K : ℕ)
    (hrow : ∀ row ∈ pm, row.length = K ∧ row.sum = 1) :
    (colSums pm K).sum = pm.length := by
  induction pm with
  | nil => simp [colSums]
  | cons r t ih =>
    have hr := hrow r (by simp)
    have ht : ∀ row ∈ t, row.length = K ∧ row.sum = 1 := fun row h => hrow row (by simp [h])
    unfold colSums at ih ⊢
    have hsplit : ((List.range K).map (fun k => ((r :: t).map (fun row => row.getD k 0)).sum)).sum
        = ((List.range K).map (fun k => r.getD k 0)).sum
          + ((List.range K).map (fun k => (t.map (fun row => row.getD k 0)).sum)).sum := by
      rw [← sum_map_add]
      congr 1
    have hrsum : ((List.range K).map (fun k => r.getD k 0)).sum = 1 := by
      rw [← hr.1, sum_getD_range_eq, hr.2]
    rw [hsplit, hrsum, ih ht]
    simp [add_comm]

lemma matFlatten_map (f : ℚ → ℚ) : ∀ (t : Mat),
    matFlatten (t.map (fun row => row.map f)) = (matFlatten t).map f := by
  intro t
  induction t with
  | nil => rfl
  | cons r rest ih => simp [matFlatten, ih]

lemma flatMap_congr {α β : Type} (l : List α) (f h : α → List β) (he : ∀ a ∈ l, f a = h a) :
    l.flatMap f = l.flatMap h := by
  simp only [List.flatMap]
  exact congrArg List.flatten (List.map_congr_left he)

lemma min_affine (a b m dd : ℚ) (h : 0 < dd) :
    (min a b - m) / dd = min ((a - m) / dd) ((b - m) / dd) := by
  rcases le_total a b with hab | hab
  · rw [min_eq_left hab, min_eq_left ((div_le_div_right h).mpr (by linarith))]
  · rw [min_eq_right hab, min_eq_right ((div_le_div_right h).mpr (by linarith))]

lemma max_affine (a b m dd : ℚ) (h : 0 < dd) :
    (max a b - m) / dd = max ((a - m) / dd) ((b - m) / dd) := by
  rcases le_total a b with hab | hab
  · rw [max_eq_right hab, max_eq_right ((div_le_div_right h).mpr (by linarith))]
  · rw [max_eq_left hab, max_eq_left ((div_le_div_right h).mpr (by linarith))]

lemma lmin_map_affine (m dd : ℚ) (h : 0 < dd) :
    ∀ (l : List ℚ), l ≠ [] → lmin (l.map (fun x => (x - m) / dd)) = (lmin l - m) / dd := by
  intro l
  induction l with
  | nil => simp
  | cons a t ih =>
    intro _
    cases t with
    | nil => simp [lmin]
    | cons b s =>
      have iht : lmin ((b :: s).map (fun x => (x - m) / dd)) = (lmin (b :: s) - m) / dd :=
        ih (by simp)
      calc lmin ((a :: b :: s).map (fun x => (x - m) / dd))
          = min ((a - m) / dd) (lmin ((b :: s).map (fun x => (x - m) / dd))) := rfl
        _ = min ((a - m) / dd) ((lmin (b :: s) - m) / dd) := by rw [iht]
        _ = (min a (lmin (b :: s)) - m) / dd := (min_affine _ _ _ _ h).symm
        _ = (lmin (a :: b :: s) - m) / dd := rfl

lemma lmax_map_affine (m dd : ℚ) (h : 0 < dd) :
    ∀ (l : List ℚ), l ≠ [] → lmax (l.map (fun x => (x - m) / dd)) = (lmax l - m) / dd := by
  intro l
  induction l with
  | nil => simp
  | cons a t ih =>
    intro _
    cases t with
    | nil => simp [lmax]
    | cons b s =>
      have iht : lmax ((b :: s).map (fun x => (x - m) / dd)) = (lmax (b :: s) - m) / dd :=
        ih (by simp)
      calc lmax ((a :: b :: s).map (fun x => (x - m) / dd))
          = max ((a - m) / dd) (lmax ((b :: s).map (fun x => (x - m) / dd))) := rfl
        _ = max ((a - m) / dd) ((lmax (b :: s) - m) / dd) := by rw [iht]
        _ = (max a (lmax (b :: s)) - m) / dd := (max_affine _ _ _ _ h).symm
        _ = (lmax (a :: b :: s) - m) / dd := rfl

lemma normalizeDailyMetric_eq (t : Mat) : normalizeDailyMetric t
    = t.map (fun row => row.map (fun x =>
        (x - lmin (matFlatten t)) / max (1 / 1000000) (lmax (matFlatten t) - lmin (matFlatten t)))) :=
  rfl

lemma foldl_const_fun {β : Type} (f : ℕ → β) (init : β) (n : ℕ) :
    (List.range (n + 1)).foldl (fun _ d => f d) init = f n := by
  rw [List.range_succ, List.foldl_append]
  rfl

lemma computeDailyAvgDni_scalar (dni : List ℚ) (npd : ℕ) :
    computeDailyAvgDni dni npd
      = NpVal.scalar (npMean (listSlice dni (364 * npd) ((364 + 1) * npd)) / 1000) := by
  unfold computeDailyAvgDni
  rw [show (365 : ℕ) = 364 + 1 from rfl, foldl_const_fun]

/-!
The claims.
-/

/-- C10: for every interior group g < floor((365-2)/ndays) with first counted
day d1 = g*ndays + 1, every day referenced by get_data_for_group — the one
previous day for _prev metrics, the one following day for _next metrics, and
the group's own ndays days — lies in [0, 364], so the assembled feature block
never takes the -1e8 sentinel branch. -/
theorem interior_group_days_in_range (ndays g ndiv : ℕ) (kind : GroupMetricKind)
    (table : Mat) (w : ℚ) (h1 : 1 ≤ ndays) (h2 : g < 363 / ndays) :
    (∀ d ∈ daysForGroup kind (g * ndays + 1) ndays, 0 ≤ d ∧ d < 365) ∧
    getDataForGroup kind (g * ndays + 1) ndays ndiv table w
      = (daysForGroup kind (g * ndays + 1) ndays).flatMap
          (fun d => (table.getD d.toNat []).map (fun x => x * w)) := by
  have hkey : g * ndays + ndays ≤ 363 := by
    have h3 : g + 1 ≤ 363 / ndays := h2
    have h4 : (g + 1) * ndays ≤ (363 / ndays) * ndays := Nat.mul_le_mul_right ndays h3
    have h5 : (363 / ndays) * ndays ≤ 363 := Nat.div_mul_le_self 363 ndays
    calc g * ndays + ndays = (g + 1) * ndays := by ring
      _ ≤ (363 / ndays) * ndays := h4
      _ ≤ 363 := h5
  have hdays : ∀ d ∈ daysForGroup kind ((g * ndays + 1 : ℕ) : ℤ) ndays, 0 ≤ d ∧ d < 365 := by
    intro d hd
    have hkeyZ : (g : ℤ) * ndays + ndays ≤ 363 := by exact_mod_cast hkey
    have h1Z : (1 : ℤ) ≤ ndays := by exact_mod_cast h1
    have hgz : (0 : ℤ) ≤ (g : ℤ) * ndays := by positivity
    cases kind with
    | pre =>
      simp only [daysForGroup, List.mem_singleton] at hd
      subst hd
      push_cast
      constructor <;> linarith
    | nxt =>
      simp only [daysForGroup, List.mem_singleton] at hd
      subst hd
      push_cast
      constructor <;> linarith
    | own =>
      rcases List.mem_map.mp hd with ⟨i, hir, rfl⟩
      have hi : i < ndays := List.mem_range.mp hir
      have hiZ : (i : ℤ) < ndays := by exact_mod_cast hi
      push_cast
      constructor <;> linarith
  refine ⟨hdays, ?_⟩
  unfold getDataForGroup
  apply flatMap_congr
  intro d hd
  rw [if_pos (hdays d hd)]

/-- C10 witness: the last interior group with the default two-day groups and a
next-day metric. -/
theorem interior_group_days_in_range_witness :
    1 ≤ 2 ∧ 180 < 363 / 2 ∧
    ((∀ d ∈ daysForGroup GroupMetricKind.nxt (180 * 2 + 1) 2, 0 ≤ d ∧ d < 365) ∧
      getDataForGroup GroupMetricKind.nxt (180 * 2 + 1) 2 1 [[1]] 1
        = (daysForGroup GroupMetricKind.nxt (180 * 2 + 1) 2).flatMap
            (fun d => (([[1]] : Mat).getD d.toNat []).map (fun x => x * 1))) :=
  ⟨by decide, by decide,
    interior_group_days_in_range 2 180 1 GroupMetricKind.nxt [[1]] 1 (by decide) (by decide)⟩

/-- C7 (amended): the min-max normalization of calculate_metrics maps a daily
metric table whose range is at least the 1e-6 epsilon floor to a table with
minimum exactly 0 and maximum exactly 1; a table whose range is merely
non-zero but below the floor is divided by the epsilon instead and its
maximum stays below 1. -/
theorem normalize_minmax_of_range_ge_eps (t : Mat) (hne : matFlatten t ≠ [])
    (hr : 1 / 1000000 ≤ lmax (matFlatten t) - lmin (matFlatten t)) :
    lmin (matFlatten (normalizeDailyMetric t)) = 0 ∧
    lmax (matFlatten (normalizeDailyMetric t)) = 1 := by
  have hpos : (0 : ℚ) < lmax (matFlatten t) - lmin (matFlatten t) :=
    lt_of_lt_of_le (by norm_num) hr
  have hd : max (1 / 1000000 : ℚ) (lmax (matFlatten t) - lmin (matFlatten t))
      = lmax (matFlatten t) - lmin (matFlatten t) := max_eq_right hr
  have hflat : matFlatten (normalizeDailyMetric t)
      = (matFlatten t).map (fun x =>
          (x - lmin (matFlatten t))
            / max (1 / 1000000) (lmax (matFlatten t) - lmin (matFlatten t))) := by
    rw [normalizeDailyMetric_eq, matFlatten_map]
  rw [hflat, hd]
  constructor
  · rw [lmin_map_affine _ _ hpos _ hne]
    simp
  · rw [lmax_map_affine _ _ hpos _ hne]
    exact div_self (ne_of_gt hpos)

/-- C7 counterexample: a raw table with strictly positive range 1e-7 has a
normalized maximum of 0.1, not 1 within 1e-6, because the denominator is
floored at 1e-6. -/
theorem normalize_nonzero_range_cex :
    (0 : ℚ) < lmax (matFlatten [[(0 : ℚ), 1 / 10000000]])
        - lmin (matFlatten [[(0 : ℚ), 1 / 10000000]]) ∧
    lmax (matFlatten (normalizeDailyMetric [[(0 : ℚ), 1 / 10000000]])) = 1 / 10 ∧
    ¬ |lmax (matFlatten (normalizeDailyMetric [[(0 : ℚ), 1 / 10000000]])) - 1| ≤ 1 / 1000000 := by
  refine ⟨by norm_num [matFlatten, lmax, lmin],
    by norm_num [normalizeDailyMetric_eq, matFlatten, lmax, lmin], ?_⟩
  norm_num [normalizeDailyMetric_eq, matFlatten, lmax, lmin]
  rw [abs_of_pos (show (0 : ℚ) < 9 / 10 by norm_num)]
  norm_num

/-- C7 witness: a table with range exactly 1 normalizes to minimum 0 and
maximum 1. -/
theorem normalize_minmax_witness :
    matFlatten [[(0 : ℚ), 1]] ≠ [] ∧
    (1 / 1000000 : ℚ) ≤ lmax (matFlatten [[(0 : ℚ), 1]]) - lmin (matFlatten [[(0 : ℚ), 1]]) ∧
    (lmin (matFlatten (normalizeDailyMetric [[(0 : ℚ), 1]])) = 0 ∧
      lmax (matFlatten (normalizeDailyMetric [[(0 : ℚ), 1]])) = 1) :=
  ⟨by decide, by norm_num [matFlatten, lmax, lmin],
    normalize_minmax_of_range_ge_eps [[(0 : ℚ), 1]] (by decide)
      (by norm_num [matFlatten, lmax, lmin])⟩

/-- C5: after adjust_weighting_for_incomplete_groups, the adjusted cluster
weights sum to exactly 1 for every positive ndays and every hard partition
matrix (each row of length n_clusters summing to 1): the column sums total
n_group, the two boundary fractions bring the total to the adjusted group
count, and dividing by that count renormalizes to 1. -/
theorem adjusted_weights_sum_to_one (dataFirst dataLast : List ℚ) (means pm : Mat)
    (nclusters ngroup nfeatures ndays : ℕ) (hnd : 0 < ndays) (hnc : 0 < nclusters)
    (hpm : pm.length = ngroup) (hrow : ∀ row ∈ pm, row.length = nclusters ∧ row.sum = 1) :
    (adjustWeighting dataFirst dataLast means pm nclusters ngroup nfeatures ndays).sum = 1 := by
  have hndQ : ((ndays : ℚ)) ≠ 0 := by
    have : (0 : ℚ) < (ndays : ℚ) := by exact_mod_cast hnd
    exact ne_of_gt this
  have hlen : (colSums pm nclusters).length = nclusters := by simp [colSums]
  have hneF : ((List.range nclusters).map (boundaryDist dataFirst means nfeatures)) ≠ [] :=
    List.ne_nil_of_length_pos (by simpa using hnc)
  have hneL : ((List.range nclusters).map (boundaryDist dataLast means nfeatures)) ≠ [] :=
    List.ne_nil_of_length_pos (by simpa using hnc)
  have hiF : argminIdx ((List.range nclusters).map (boundaryDist dataFirst means nfeatures))
      < nclusters := by simpa using argmin_lt_length _ hneF
  have hiL : argminIdx ((List.range nclusters).map (boundaryDist dataLast means nfeatures))
      < nclusters := by simpa using argmin_lt_length _ hneL
  simp only [adjustWeighting]
  rw [sum_map_div]
  rw [addAt_sum _ _ _ (by rw [addAt_length, hlen]; exact hiL)]
  rw [addAt_sum _ _ _ (by rw [hlen]; exact hiF)]
  rw [colSums_sum pm nclusters hrow, hpm]
  have h365 : ((ngroup : ℚ) + 1 / (ndays : ℚ) + (365 - (ngroup : ℚ) * (ndays : ℚ) - 1) / (ndays : ℚ))
      = 365 / (ndays : ℚ) := by
    field_simp
  exact div_self (by rw [h365]; exact div_ne_zero (by norm_num) hndQ)

/-- C5 witness: two groups, two clusters, two-day groups. -/
theorem adjusted_weights_sum_to_one_witness :
    0 < 2 ∧ ([[(1 : ℚ), 0], [0, 1]] : Mat).length = 2 ∧
    (adjustWeighting [0] [0] [[0], [1]] [[(1 : ℚ), 0], [0, 1]] 2 2 1 2).sum = 1 :=
  ⟨by decide, by decide,
    adjusted_weights_sum_to_one [0] [0] [[0], [1]] [[(1 : ℚ), 0], [0, 1]] 2 2 1 2
      (by decide) (by decide) (by decide) (by norm_num)⟩

/-- C6: under hard partitioning, the partition matrix built from any argmin
cluster assignment over a nonempty exemplar list gives every group row a
single 1.0 in the column of its assigned cluster and zeros elsewhere, so each
row sums to exactly 1. -/
theorem hard_partition_rows_one_hot (S : Mat) (ex : List ℕ) (ngroup gi : ℕ)
    (hex : ex ≠ []) (hgi : gi < ngroup) :
    ((hardPartition ngroup ex.length (assignAllM S ex ngroup)).getD gi []).sum = 1 ∧
    ((hardPartition ngroup ex.length (assignAllM S ex ngroup)).getD gi []).getD
      (assignPtM S ex gi) 0 = 1 ∧
    ∀ k, k < ex.length → k ≠ assignPtM S ex gi →
      ((hardPartition ngroup ex.length (assignAllM S ex ngroup)).getD gi []).getD k 0 = 0 := by
  have hassign : (assignAllM S ex ngroup).getD gi 0 = assignPtM S ex gi := by
    unfold assignAllM
    exact range_map_getD _ 0 hgi
  have hlt : assignPtM S ex gi < ex.length := by
    unfold assignPtM
    have hne : (ex.map (fun e => mentry S gi e)) ≠ [] := by
      cases ex with
      | nil => exact absurd rfl hex
      | cons a t => simp
    simpa using argmin_lt_length _ hne
  have hrow : (hardPartition ngroup ex.length (assignAllM S ex ngroup)).getD gi []
      = (List.range ex.length).map
          (fun k => if assignPtM S ex gi = k then (1 : ℚ) else 0) := by
    unfold hardPartition
    rw [range_map_getD _ [] hgi, hassign]
  refine ⟨?_, ?_, ?_⟩
  · rw [hrow]
    exact sum_indicator_range hlt
  · rw [hrow, range_map_getD _ 0 hlt, if_pos rfl]
  · intro k hk hne
    rw [hrow, range_map_getD _ 0 hk, if_neg (fun h => hne h.symm)]

/-- C6 witness: two groups and two exemplars with a concrete distance
matrix. -/
theorem hard_partition_rows_one_hot_witness :
    ([0, 1] : List ℕ) ≠ [] ∧ 0 < 2 ∧
    ((((hardPartition 2 2 (assignAllM [[0, 1], [1, 0]] [0, 1] 2)).getD 0 []).sum = 1) ∧
      ((hardPartition 2 2 (assignAllM [[0, 1], [1, 0]] [0, 1] 2)).getD 0 []).getD
        (assignPtM [[0, 1], [1, 0]] [0, 1] 0) 0 = 1 ∧
      ∀ k, k < 2 → k ≠ assignPtM [[0, 1], [1, 0]] [0, 1] 0 →
        (((hardPartition 2 2 (assignAllM [[0, 1], [1, 0]] [0, 1] 2)).getD 0 []).getD k 0 = 0)) :=
  ⟨by decide, by decide,
    by
      have h := hard_partition_rows_one_hot [[0, 1], [1, 0]] [0, 1] 2 0 (by decide) (by decide)
      simpa using h⟩

/-- C4 counterexample: on the two-point data set with rows 0 and 1, the
spec's off-diagonal median is -1, but the default-preference step writes -1/2
to the diagonal, the median over the whole similarity matrix including its
zero diagonal. -/
theorem default_preference_median_cex :
    mentry (afpSetPreference (similarityMatrix [[(0 : ℚ)], [1]]) none) 0 0 = -(1 / 2) ∧
    npMedian (offDiagEntries (similarityMatrix [[(0 : ℚ)], [1]])) = -1 ∧
    (-(1 / 2) : ℚ) ≠ -1 := by
  refine ⟨by with_unfolding_all rfl, by with_unfolding_all rfl, by norm_num⟩

/-- C4 (amended): when no preference is supplied (or the caller passes a falsy
0.0), the diagonal of S is set to np.median(S), the median of all entries of S
including the i = j zeros; a truthy preference multiplier path writes the
scaled full-matrix median instead. -/
theorem preference_is_full_matrix_median (data : Mat) (mult : ℚ) (i : ℕ)
    (hi : i < data.length) :
    mentry (afpSetPreference (similarityMatrix data) none) i i
      = npMedian (matFlatten (similarityMatrix data)) ∧
    (npMedian (matFlatten (similarityMatrix data)) * mult ≠ 0 →
      mentry (afpSetPreference (similarityMatrix data)
          (some (npMedian (matFlatten (similarityMatrix data)) * mult))) i i
        = npMedian (matFlatten (similarityMatrix data)) * mult) := by
  have hlen : (similarityMatrix data).length = data.length := length_mkMat _ _
  have hi' : i < (similarityMatrix data).length := by rw [hlen]; exact hi
  constructor
  · show mentry (setDiagM (similarityMatrix data) (npMedian (matFlatten (similarityMatrix data))))
        i i = npMedian (matFlatten (similarityMatrix data))
    unfold setDiagM
    rw [mentry_mkMat _ _ hi' hi', if_pos rfl]
  · intro hne
    unfold afpSetPreference
    rw [if_pos (by simp [prefTruthy, bne_iff_ne, hne])]
    unfold setDiagM
    rw [mentry_mkMat _ _ hi' hi', if_pos rfl]
    simp

/-- C4 witness for the amended claim at the two-point data set. -/
theorem preference_is_full_matrix_median_witness :
    0 < ([[(0 : ℚ)], [1]] : Mat).length ∧
    (mentry (afpSetPreference (similarityMatrix [[(0 : ℚ)], [1]]) none) 0 0
        = npMedian (matFlatten (similarityMatrix [[(0 : ℚ)], [1]])) ∧
      (npMedian (matFlatten (similarityMatrix [[(0 : ℚ)], [1]])) * 2 ≠ 0 →
        mentry (afpSetPreference (similarityMatrix [[(0 : ℚ)], [1]])
            (some (npMedian (matFlatten (similarityMatrix [[(0 : ℚ)], [1]])) * 2))) 0 0
          = npMedian (matFlatten (similarityMatrix [[(0 : ℚ)], [1]])) * 2)) :=
  ⟨by decide, preference_is_full_matrix_median [[(0 : ℚ)], [1]] 2 0 (by decide)⟩

/-- C3: after run_clustering, csp_soc_heuristic raises a TypeError for every
valid cluster id and any solar multiple, because the loop in calculate_metrics
rebinds daily_avg_dni to a float64 scalar (the assignment on line 202 is
missing the [d] subscript), and a numpy scalar cannot be subscripted. -/
theorem csp_soc_heuristic_raises (dni : List ℚ) (npd : ℕ) (days : List ℕ) (cid : ℕ)
    (sm : Option ℚ) (h : cid < days.length) :
    cspSocHeuristic days (computeDailyAvgDni dni npd) cid sm = Except.error "TypeError" := by
  rw [computeDailyAvgDni_scalar]
  unfold cspSocHeuristic
  rw [List.get?_eq_get h]

/-- C3 witness: cluster id 0 of a one-cluster schedule. -/
theorem csp_soc_heuristic_raises_witness :
    0 < [1].length ∧
    cspSocHeuristic [1] (computeDailyAvgDni [] 24) 0 (some 2) = Except.error "TypeError" :=
  ⟨by decide, csp_soc_heuristic_raises [] 24 [1] 0 (some 2) (by decide)⟩

/-- C9: fit_predict re-seeds the global numpy generator with the fixed seed
123 on every call, so the result — exemplars, cluster count and WCSS — does
not depend on the incoming generator state: two runs on the same data with
the same parameters coincide. -/
theorem fit_predict_deterministic (g : ℕ → ℕ → ℚ) (st1 st2 : RngState) (p : APParams)
    (data : Mat) :
    (fitPredict g st1 p data).1.exemplars = (fitPredict g st2 p data).1.exemplars ∧
    (fitPredict g st1 p data).1.n_clusters = (fitPredict g st2 p data).1.n_clusters ∧
    (fitPredict g st1 p data).1.wcss = (fitPredict g st2 p data).1.wcss :=
  ⟨rfl, rfl, rfl⟩

/-!
Auxiliary results about the post-processing stage of fit_predict over the
exact distance matrix, leading to claim C8.
-/

/-- Abbreviation for the true squared distance between two data rows. -/
def ptD (data : Mat) (i j : ℕ) : ℚ := d2 (rowOf data i) (rowOf data j)

lemma mentry_idealPostS (data : Mat) {i j : ℕ} (hi : i < data.length)
    (hj : j < data.length) : mentry (idealPostS data) i j = ptD data i j := by
  unfold idealPostS
  rw [mentry_mkMat _ _ hi hj]
  by_cases h : i = j
  · subst h
    rw [if_pos rfl, ptD, d2_self]
  · rw [if_neg h]
    rfl

lemma assign_lt (S' : Mat) (ex : List ℕ) (hex : ex ≠ []) (i : ℕ) :
    assignPtM S' ex i < ex.length := by
  unfold assignPtM
  have hne : (ex.map (fun e => mentry S' i e)) ≠ [] := by
    cases ex with
    | nil => exact absurd rfl hex
    | cons a t => simp
  simpa using argmin_lt_length _ hne

lemma assign_min (S' : Mat) (ex : List ℕ) (hex : ex ≠ []) (i : ℕ) {j : ℕ}
    (hj : j < ex.length) :
    mentry S' i (ex.getD (assignPtM S' ex i) 0) ≤ mentry S' i (ex.getD j 0) := by
  have hne : (ex.map (fun e => mentry S' i e)) ≠ [] := by
    cases ex with
    | nil => exact absurd rfl hex
    | cons a t => simp
  have hlt := assign_lt S' ex hex i
  have h1 : (ex.map (fun e => mentry S' i e)).getD (assignPtM S' ex i) 0
      = mentry S' i (ex.getD (assignPtM S' ex i) 0) := getD_map_lt _ _ _ _ 0 (by simpa using hlt)
  have h2 : (ex.map (fun e => mentry S' i e)).getD j 0
      = mentry S' i (ex.getD j 0) := getD_map_lt _ _ _ _ 0 (by simpa using hj)
  have h3 := argmin_getD _ hne
  have h4 := lmin_getD_le (ex.map (fun e => mentry S' i e)) (j := j) (by simpa using hj)
  rw [← h1, ← h2]
  unfold assignPtM
  rw [h3]
  exact h4

lemma assign_strict_before (S' : Mat) (ex : List ℕ) (hex : ex ≠ []) (i : ℕ) {j : ℕ}
    (hj : j < assignPtM S' ex i) :
    mentry S' i (ex.getD (assignPtM S' ex i) 0) < mentry S' i (ex.getD j 0) := by
  have hne : (ex.map (fun e => mentry S' i e)) ≠ [] := by
    cases ex with
    | nil => exact absurd rfl hex
    | cons a t => simp
  have hlt := assign_lt S' ex hex i
  have hjlen : j < ex.length := lt_trans hj hlt
  have h1 : (ex.map (fun e => mentry S' i e)).getD (assignPtM S' ex i) 0
      = mentry S' i (ex.getD (assignPtM S' ex i) 0) := getD_map_lt _ _ _ _ 0 (by simpa using hlt)
  have h2 : (ex.map (fun e => mentry S' i e)).getD j 0
      = mentry S' i (ex.getD j 0) := getD_map_lt _ _ _ _ 0 (by simpa using hjlen)
  have h3 := argmin_getD _ hne
  have h4 := argmin_first (ex.map (fun e => mentry S' i e)) j (by simpa using hj)
  rw [← h1, ← h2]
  unfold assignPtM
  rw [h3]
  exact h4

lemma pts_mem_lt {S' : Mat} {ex : List ℕ} {n k i : ℕ}
    (h : i ∈ clusterPtsM S' ex n k) : i < n ∧ assignPtM S' ex i = k := by
  unfold clusterPtsM at h
  have h1 := List.mem_filter.mp h
  exact ⟨List.mem_range.mp h1.1, by simpa using h1.2⟩

lemma mem_pts {S' : Mat} {ex : List ℕ} {n k i : ℕ} (hi : i < n)
    (ha : assignPtM S' ex i = k) : i ∈ clusterPtsM S' ex n k := by
  unfold clusterPtsM
  exact List.mem_filter.mpr ⟨List.mem_range.mpr hi, by simpa using ha⟩

/-- If a cluster of the raw assignment over the exact distance matrix is
nonempty, its exemplar belongs to it: a point strictly closer to a later
duplicate exemplar than to an earlier one cannot exist, and the exemplar is at
distance zero from itself. -/
lemma exemplar_in_cluster (data : Mat) (nf : ℕ) (ex : List ℕ) (k : ℕ)
    (hex : ex ≠ []) (hlt : ∀ e ∈ ex, e < data.length)
    (hrows : ∀ r ∈ data, r.length = nf) (hk : k < ex.length)
    (hne : clusterPtsM (idealPostS data) ex data.length k ≠ []) :
    ex.getD k 0 ∈ clusterPtsM (idealPostS data) ex data.length k := by
  obtain ⟨x, hx⟩ := List.exists_mem_of_ne_nil _ hne
  obtain ⟨hxn, hxk⟩ := pts_mem_lt hx
  have hekn : ex.getD k 0 < data.length := hlt _ (getD_mem 0 hk)
  set S := idealPostS data with hS
  set ek := ex.getD k 0 with hek
  set a := assignPtM S ex ek with haDef
  have haLen : a < ex.length := assign_lt S ex hex ek
  have hean : ex.getD a 0 < data.length := hlt _ (getD_mem 0 haLen)
  -- distance from the exemplar to itself is zero
  have hself : mentry S ek (ex.getD k 0) = 0 := by
    rw [mentry_idealPostS data hekn hekn, ptD]
    exact d2_self _
  have hnonneg : 0 ≤ mentry S ek (ex.getD a 0) := by
    rw [mentry_idealPostS data hekn hean]
    exact d2_nonneg _ _
  rcases Nat.lt_trichotomy a k with hak | hak | hak
  · -- a < k: the a-th exemplar row must equal the k-th, contradicting the
    -- strict preference of x for cluster k over the earlier cluster a
    have hle : mentry S ek (ex.getD a 0) ≤ mentry S ek (ex.getD k 0) :=
      assign_min S ex hex ek hk
    have hzero : mentry S ek (ex.getD a 0) = 0 := le_antisymm (by rw [← hself]; exact hle) hnonneg
    have hroweq : rowOf data ek = rowOf data (ex.getD a 0) := by
      have hlen1 : (rowOf data ek).length = nf := hrows _ (getD_mem [] hekn)
      have hlen2 : (rowOf data (ex.getD a 0)).length = nf := hrows _ (getD_mem [] hean)
      have hz : d2 (rowOf data ek) (rowOf data (ex.getD a 0)) = 0 := by
        rw [← ptD, ← mentry_idealPostS data hekn hean]
        exact hzero
      exact d2_zero_eq _ _ (by rw [hlen1, hlen2]) hz
    have hstrict : mentry S x (ex.getD k 0) < mentry S x (ex.getD a 0) := by
      have := assign_strict_before S ex hex x (j := a) (by rw [hxk]; exact hak)
      rwa [hxk] at this
    have heq : mentry S x (ex.getD k 0) = mentry S x (ex.getD a 0) := by
      rw [mentry_idealPostS data hxn hekn, mentry_idealPostS data hxn hean]
      simp only [ptD]
      rw [hroweq]
    exact absurd hstrict (by rw [heq]; exact lt_irrefl _)
  · exact mem_pts hekn (by rw [← haDef, hak])
  · -- k < a: the exemplar would be strictly closer to itself than to itself
    have hstrict : mentry S ek (ex.getD a 0) < mentry S ek (ex.getD k 0) :=
      assign_strict_before S ex hex ek (j := k) (haDef ▸ hak)
    rw [hself] at hstrict
    exact absurd hstrict (not_lt.mpr hnonneg)

/-- The WCSS of an assignment produced by argmin over an exemplar list, with
the cluster means being the exemplar rows, collapses to a single sum over
points of the distance to the exemplar of the assigned cluster. -/
lemma computeWcss_eq_sum (data : Mat) (S' : Mat) (ex' : List ℕ) (hex : ex' ≠ []) :
    computeWcss data (assignAllM S' ex' data.length) (ex'.map (rowOf data))
      = ∑ i ∈ Finset.range data.length,
          d2 (rowOf data i) (rowOf data (ex'.getD (assignPtM S' ex' i) 0)) := by
  unfold computeWcss
  simp only [List.length_map]
  rw [listRangeSum]
  have hinner : ∀ k ∈ Finset.range ex'.length,
      ((List.range data.length).map (fun i =>
        if (assignAllM S' ex' data.length).getD i 0 = k
        then d2 (rowOf data i) ((ex'.map (rowOf data)).getD k []) else 0)).sum
      = ∑ i ∈ Finset.range data.length,
          (if assignPtM S' ex' i = k
           then d2 (rowOf data i) (rowOf data (ex'.getD k 0)) else 0) := by
    intro k hk
    rw [listRangeSum]
    apply Finset.sum_congr rfl
    intro i hi
    rw [show (assignAllM S' ex' data.length).getD i 0 = assignPtM S' ex' i from
      range_map_getD _ 0 (Finset.mem_range.mp hi)]
    rw [show (ex'.map (rowOf data)).getD k [] = rowOf data (ex'.getD k 0) from
      getD_map_lt _ _ _ _ 0 (Finset.mem_range.mp hk)]
  rw [Finset.sum_congr rfl hinner, Finset.sum_comm]
  apply Finset.sum_congr rfl
  intro i _
  rw [Finset.sum_ite_eq (Finset.range ex'.length) (assignPtM S' ex' i)
    (fun k => d2 (rowOf data i) (rowOf data (ex'.getD k 0)))]
  rw [if_pos (Finset.mem_range.mpr (assign_lt S' ex' hex i))]

/-- Summing a function of point and cluster over the clusters of an
assignment, cluster by cluster, is the same as summing it over the points. -/
lemma sum_filter_cluster (n K : ℕ) (a : ℕ → ℕ) (ha : ∀ i, i < n → a i < K)
    (F : ℕ → ℕ → ℚ) :
    ∑ k ∈ Finset.range K,
        (((List.range n).filter (fun i => a i == k)).map (fun i => F i k)).sum
      = ∑ i ∈ Finset.range n, F i (a i) := by
  have h1 : ∀ k, (((List.range n).filter (fun i => a i == k)).map (fun i => F i k)).sum
      = ∑ i ∈ Finset.range n, if a i = k then F i k else 0 := by
    intro k
    rw [filter_map_sum, listRangeSum]
    apply Finset.sum_congr rfl
    intro i _
    by_cases h : a i = k
    · simp [h]
    · simp [h]
  simp only [h1]
  rw [Finset.sum_comm]
  apply Finset.sum_congr rfl
  intro i hi
  rw [Finset.sum_ite_eq (Finset.range K) (a i) (fun k => F i k)]
  rw [if_pos (Finset.mem_range.mpr (ha i (Finset.mem_range.mp hi)))]

/-- Per-cluster bound: within any cluster of the raw assignment, the total
distance of the members to the refined exemplar is at most their total
distance to the original exemplar, because the refinement picks the member
minimizing the total and the original exemplar is itself a member (or the
cluster is small and is left unchanged). -/
lemma refined_cluster_sum_le (data : Mat) (nf : ℕ) (ex : List ℕ) (k : ℕ)
    (hex : ex ≠ []) (hlt : ∀ e ∈ ex, e < data.length)
    (hrows : ∀ r ∈ data, r.length = nf) (hk : k < ex.length) :
    ((clusterPtsM (idealPostS data) ex data.length k).map
        (fun i => d2 (rowOf data i)
          (rowOf data ((refineExemplarsM (idealPostS data) ex data.length).getD k 0)))).sum
      ≤ ((clusterPtsM (idealPostS data) ex data.length k).map
          (fun i => d2 (rowOf data i) (rowOf data (ex.getD k 0)))).sum := by
  have hrk : (refineExemplarsM (idealPostS data) ex data.length).getD k 0
      = if 2 < (clusterPtsM (idealPostS data) ex data.length k).length
        then (clusterPtsM (idealPostS data) ex data.length k).getD
          (argminIdx ((clusterPtsM (idealPostS data) ex data.length k).map
            (medoidTotalM (idealPostS data) (clusterPtsM (idealPostS data) ex data.length k)))) 0
        else ex.getD k 0 := by
    unfold refineExemplarsM
    exact range_map_getD _ 0 hk
  by_cases hbig : 2 < (clusterPtsM (idealPostS data) ex data.length k).length
  · rw [hrk, if_pos hbig]
    have hptsne : clusterPtsM (idealPostS data) ex data.length k ≠ [] :=
      List.ne_nil_of_length_pos (by omega)
    have hmem : ∀ i ∈ clusterPtsM (idealPostS data) ex data.length k, i < data.length :=
      fun i hi => (pts_mem_lt hi).1
    have hmapne : ((clusterPtsM (idealPostS data) ex data.length k).map
        (medoidTotalM (idealPostS data) (clusterPtsM (idealPostS data) ex data.length k))) ≠ [] := by
      cases h : clusterPtsM (idealPostS data) ex data.length k with
      | nil => exact absurd h hptsne
      | cons a t => simp
    have hamlt : argminIdx ((clusterPtsM (idealPostS data) ex data.length k).map
        (medoidTotalM (idealPostS data) (clusterPtsM (idealPostS data) ex data.length k)))
        < (clusterPtsM (idealPostS data) ex data.length k).length := by
      simpa using argmin_lt_length _ hmapne
    have hmmem : (clusterPtsM (idealPostS data) ex data.length k).getD
        (argminIdx ((clusterPtsM (idealPostS data) ex data.length k).map
          (medoidTotalM (idealPostS data) (clusterPtsM (idealPostS data) ex data.length k)))) 0
        ∈ clusterPtsM (idealPostS data) ex data.length k := getD_mem 0 hamlt
    have hmlt : (clusterPtsM (idealPostS data) ex data.length k).getD
        (argminIdx ((clusterPtsM (idealPostS data) ex data.length k).map
          (medoidTotalM (idealPostS data) (clusterPtsM (idealPostS data) ex data.length k)))) 0
        < data.length := hmem _ hmmem
    have heklt : ex.getD k 0 < data.length := hlt _ (getD_mem 0 hk)
    have hekpts : ex.getD k 0 ∈ clusterPtsM (idealPostS data) ex data.length k :=
      exemplar_in_cluster data nf ex k hex hlt hrows hk hptsne
    have htot : ∀ p, p < data.length →
        ((clusterPtsM (idealPostS data) ex data.length k).map
          (fun i => d2 (rowOf data i) (rowOf data p))).sum
        = medoidTotalM (idealPostS data) (clusterPtsM (idealPostS data) ex data.length k) p := by
      intro p hp
      unfold medoidTotalM
      apply congrArg List.sum
      apply List.map_congr_left
      intro q hq
      rw [mentry_idealPostS data hp (hmem q hq), ptD]
      exact d2_symm _ _
    rw [htot _ hmlt, htot _ heklt]
    obtain ⟨j, hj, hjeq⟩ := mem_getD 0 hekpts
    have h1 : ((clusterPtsM (idealPostS data) ex data.length k).map
        (medoidTotalM (idealPostS data) (clusterPtsM (idealPostS data) ex data.length k))).getD
          (argminIdx ((clusterPtsM (idealPostS data) ex data.length k).map
            (medoidTotalM (idealPostS data) (clusterPtsM (idealPostS data) ex data.length k)))) 0
        = medoidTotalM (idealPostS data) (clusterPtsM (idealPostS data) ex data.length k)
            ((clusterPtsM (idealPostS data) ex data.length k).getD
              (argminIdx ((clusterPtsM (idealPostS data) ex data.length k).map
                (medoidTotalM (idealPostS data)
                  (clusterPtsM (idealPostS data) ex data.length k)))) 0) :=
      getD_map_lt _ _ _ _ 0 hamlt
    have h2 : ((clusterPtsM (idealPostS data) ex data.length k).map
        (medoidTotalM (idealPostS data) (clusterPtsM (idealPostS data) ex data.length k))).getD j 0
        = medoidTotalM (idealPostS data) (clusterPtsM (idealPostS data) ex data.length k)
            (ex.getD k 0) := by
      rw [getD_map_lt _ _ _ _ 0 hj, hjeq]
    rw [← h1, ← h2, argmin_getD _ hmapne]
    exact lmin_getD_le _ (by simpa using hj)
  · rw [hrk, if_neg hbig]

/-- C8: over the exact post-processing distance matrix (the state of S at
lines 744-745 with the 1e-8 symmetry-breaking noise at zero), the WCSS of the
refined exemplars with re-assignment is at most the WCSS of the raw
pre-refinement assignment to the originally elected exemplars, for every
nonempty exemplar list of valid point indices and uniform row lengths. -/
theorem refinement_wcss_nonincreasing (data : Mat) (nf : ℕ) (ex : List ℕ)
    (hex : ex ≠ []) (hlt : ∀ e ∈ ex, e < data.length)
    (hrows : ∀ r ∈ data, r.length = nf) :
    computeWcss data
        (assignAllM (idealPostS data)
          (refineExemplarsM (idealPostS data) ex data.length) data.length)
        ((refineExemplarsM (idealPostS data) ex data.length).map (rowOf data))
      ≤ computeWcss data (assignAllM (idealPostS data) ex data.length)
          (ex.map (rowOf data)) := by
  have hrlen : (refineExemplarsM (idealPostS data) ex data.length).length = ex.length := by
    unfold refineExemplarsM
    simp
  have hrex : refineExemplarsM (idealPostS data) ex data.length ≠ [] := by
    apply List.ne_nil_of_length_pos
    rw [hrlen]
    cases ex with
    | nil => exact absurd rfl hex
    | cons a t => simp
  have hrlt : ∀ e ∈ refineExemplarsM (idealPostS data) ex data.length, e < data.length := by
    intro e he
    unfold refineExemplarsM at he
    rcases List.mem_map.mp he with ⟨k, hkr, rfl⟩
    have hk : k < ex.length := List.mem_range.mp hkr
    by_cases hbig : 2 < (clusterPtsM (idealPostS data) ex data.length k).length
    · rw [if_pos hbig]
      have hptsne : clusterPtsM (idealPostS data) ex data.length k ≠ [] :=
        List.ne_nil_of_length_pos (by omega)
      have hmapne : ((clusterPtsM (idealPostS data) ex data.length k).map
          (medoidTotalM (idealPostS data)
            (clusterPtsM (idealPostS data) ex data.length k))) ≠ [] := by
        cases h : clusterPtsM (idealPostS data) ex data.length k with
        | nil => exact absurd h hptsne
        | cons a t => simp
      have hamlt : argminIdx ((clusterPtsM (idealPostS data) ex data.length k).map
          (medoidTotalM (idealPostS data) (clusterPtsM (idealPostS data) ex data.length k)))
          < (clusterPtsM (idealPostS data) ex data.length k).length := by
        simpa using argmin_lt_length _ hmapne
      exact (pts_mem_lt (getD_mem 0 hamlt)).1
    · rw [if_neg hbig]
      exact hlt _ (getD_mem 0 hk)
  rw [computeWcss_eq_sum data (idealPostS data) _ hrex,
    computeWcss_eq_sum data (idealPostS data) ex hex]
  have step1 : ∑ i ∈ Finset.range data.length,
      d2 (rowOf data i)
        (rowOf data ((refineExemplarsM (idealPostS data) ex data.length).getD
          (assignPtM (idealPostS data) (refineExemplarsM (idealPostS data) ex data.length) i) 0))
      ≤ ∑ i ∈ Finset.range data.length,
          d2 (rowOf data i)
            (rowOf data ((refineExemplarsM (idealPostS data) ex data.length).getD
              (assignPtM (idealPostS data) ex i) 0)) := by
    apply Finset.sum_le_sum
    intro i hi
    have hin : i < data.length := Finset.mem_range.mp hi
    have hai : assignPtM (idealPostS data) ex i
        < (refineExemplarsM (idealPostS data) ex data.length).length := by
      rw [hrlen]
      exact assign_lt _ ex hex i
    have h := assign_min (idealPostS data) (refineExemplarsM (idealPostS data) ex data.length)
      hrex i hai
    have e1 : (refineExemplarsM (idealPostS data) ex data.length).getD
        (assignPtM (idealPostS data) (refineExemplarsM (idealPostS data) ex data.length) i) 0
        < data.length := hrlt _ (getD_mem 0 (assign_lt _ _ hrex i))
    have e2 : (refineExemplarsM (idealPostS data) ex data.length).getD
        (assignPtM (idealPostS data) ex i) 0 < data.length := hrlt _ (getD_mem 0 hai)
    rw [mentry_idealPostS data hin e1, mentry_idealPostS data hin e2, ptD, ptD] at h
    exact h
  refine le_trans step1 ?_
  have ha : ∀ i, i < data.length → assignPtM (idealPostS data) ex i < ex.length :=
    fun i _ => assign_lt _ ex hex i
  rw [← sum_filter_cluster data.length ex.length (assignPtM (idealPostS data) ex) ha
    (fun i k => d2 (rowOf data i)
      (rowOf data ((refineExemplarsM (idealPostS data) ex data.length).getD k 0)))]
  rw [← sum_filter_cluster data.length ex.length (assignPtM (idealPostS data) ex) ha
    (fun i k => d2 (rowOf data i) (rowOf data (ex.getD k 0)))]
  apply Finset.sum_le_sum
  intro k hk
  have hk' : k < ex.length := Finset.mem_range.mp hk
  have := refined_cluster_sum_le data nf ex k hex hlt hrows hk'
  simpa [clusterPtsM] using this

/-- C8 witness: four points, two exemplars, one cluster of three members. -/
theorem refinement_wcss_nonincreasing_witness :
    ([0, 3] : List ℕ) ≠ [] ∧
    computeWcss [[(0 : ℚ)], [0], [1], [10]]
        (assignAllM (idealPostS [[(0 : ℚ)], [0], [1], [10]])
          (refineExemplarsM (idealPostS [[(0 : ℚ)], [0], [1], [10]]) [0, 3] 4) 4)
        ((refineExemplarsM (idealPostS [[(0 : ℚ)], [0], [1], [10]]) [0, 3] 4).map
          (rowOf [[(0 : ℚ)], [0], [1], [10]]))
      ≤ computeWcss [[(0 : ℚ)], [0], [1], [10]]
          (assignAllM (idealPostS [[(0 : ℚ)], [0], [1], [10]]) [0, 3] 4)
          (([0, 3] : List ℕ).map (rowOf [[(0 : ℚ)], [0], [1], [10]])) :=
  ⟨by decide,
    refinement_wcss_nonincreasing [[(0 : ℚ)], [0], [1], [10]] 1 [0, 3]
      (by decide) (by decide) (by norm_num)⟩

/-- C1: on a single-row feature matrix (n_group = 1) with the default
configuration, create_clusters raises KeyError instead of producing the
one-cluster set: the n_group == 1 branch of
form_clusters_using_current_parameters returns its dict but both call sites
discard the return value, so self.clusters stays empty and the read of
self.clusters['converged'] fails; the discarded dict itself holds n_cluster 1
and wcss 0 but never receives the weights (or converged) key. -/
theorem create_clusters_single_group_keyerror (g : ℕ → ℕ → ℚ) (rng : RngState)
    (x : List ℚ) (garbage : Bool) :
    createClusters g rng [x] defaultClusteringParams garbage
      = Except.error "KeyError: converged" ∧
    createClusters g rng [x] { defaultClusteringParams with afp_enforce_Ncluster := false }
      garbage = Except.error "KeyError: n_cluster" ∧
    (formClustersSingle [x]).n_cluster = some 1 ∧
    (formClustersSingle [x]).wcss = some 0 ∧
    (formClustersSingle [x]).weights = none ∧
    (formClustersSingle [x]).converged = none :=
  ⟨rfl, rfl, rfl, rfl, rfl, rfl⟩

/-- C2: the relabeling block of create_clusters copies n_cluster and wcss but
rebuilds every other key with np.empty_like; the converged key is never
refilled afterwards, so the reported flag is whatever the uninitialized
buffer held (here shown reading false) even though the accepted attempt had
converged = True. -/
theorem sort_clusters_overwrites_converged :
    sampleConvergedClusters.converged = some true ∧
    sortClustersDict 2 sampleConvergedClusters false = Except.ok
      { n_cluster := some 2, wcss := some 5, index := some [0, 1], count := some [1, 1],
        means := some [[1], [0]], partition_matrix := some [[1, 0], [0, 1]],
        exemplars := some [0, 1], converged := some false, weights := some [1 / 2, 1 / 2] } ∧
    (∀ b : Bool, (sortClustersDict 2 sampleConvergedClusters b).toOption.map
      ClustersDict.converged = some (some b)) :=
  ⟨rfl, by with_unfolding_all rfl, fun b => by cases b <;> with_unfolding_all rfl⟩

end HoppClustering


